import Mathlib

/-!
Shallow embedding of `src/optimized_recsys.py`:
`OptimizedUserItemGraph` and `OptimizedRecommendationEngine`.

Python dicts are modelled as association lists (new entries prepended;
lookup takes the first hit, which agrees with dict semantics because keys
are never inserted twice).  Python sets of ints are `Finset ℕ`.  Scores are
`ℚ` (the Python code divides two small non-negative ints; every equality the
claims compare is between identically-computed quotients, so exact rational
arithmetic is a faithful model).  The `lru_cache` on `compute_similarity`
is modelled as an explicit most-recently-used-first association list that is
threaded through the engine; the unguarded dict accesses
`user_to_items[other_user]` and `int_to_str_item[iid]` inside `recommend`
are modelled with `Option` (a `none` is Python's `KeyError`).
-/

namespace RecSys

/-- Association-list lookup: first entry whose key matches. -/
def alookup {α β : Type} [DecidableEq α] : List (α × β) → α → Option β
  | [], _ => none
  | p :: ps, k => if p.1 = k then some p.2 else alookup ps k

/-- Replace the value stored under key `k` (every matching entry). -/
def aupdate {α β : Type} [DecidableEq α] (l : List (α × β)) (k : α) (v : β) :
    List (α × β) :=
  l.map (fun p => if p.1 = k then (k, v) else p)

/-- Embeds `m.setdefault(k, set()).add(v)` on a dict of int-sets. -/
def setdefaultAdd (l : List (ℕ × Finset ℕ)) (k v : ℕ) : List (ℕ × Finset ℕ) :=
  match alookup l k with
  | some s => aupdate l k (insert v s)
  | none => (k, {v}) :: l

/-- State of `OptimizedUserItemGraph`. -/
structure Graph where
  user_to_items : List (ℕ × Finset ℕ)
  item_to_users : List (ℕ × Finset ℕ)
  str_to_int_user : List (String × ℕ)
  int_to_str_user : List (ℕ × String)
  user_counter : ℕ
  str_to_int_item : List (String × ℕ)
  int_to_str_item : List (ℕ × String)
  item_counter : ℕ
deriving DecidableEq

/-- Embeds `OptimizedUserItemGraph.__init__`. -/
def emptyGraph : Graph := ⟨[], [], [], [], 0, [], [], 0⟩

/-- Embeds `OptimizedUserItemGraph._get_user_id`: intern a user string. -/
def getUserId (g : Graph) (s : String) : ℕ × Graph :=
  match alookup g.str_to_int_user s with
  | some uid => (uid, g)
  | none =>
      (g.user_counter,
       { g with
          str_to_int_user := (s, g.user_counter) :: g.str_to_int_user
          int_to_str_user := (g.user_counter, s) :: g.int_to_str_user
          user_counter := g.user_counter + 1 })

/-- Embeds `OptimizedUserItemGraph._get_item_id`: intern an item string. -/
def getItemId (g : Graph) (s : String) : ℕ × Graph :=
  match alookup g.str_to_int_item s with
  | some iid => (iid, g)
  | none =>
      (g.item_counter,
       { g with
          str_to_int_item := (s, g.item_counter) :: g.str_to_int_item
          int_to_str_item := (g.item_counter, s) :: g.int_to_str_item
          item_counter := g.item_counter + 1 })

/-- Embeds `OptimizedUserItemGraph.add_interaction`. -/
def add_interaction (g : Graph) (ustr istr : String) : Graph :=
  let p := getUserId g ustr
  let q := getItemId p.2 istr
  { q.2 with
      user_to_items := setdefaultAdd q.2.user_to_items p.1 q.1
      item_to_users := setdefaultAdd q.2.item_to_users q.1 p.1 }

/-- Embeds `OptimizedUserItemGraph.get_user_items` (external string key). -/
def get_user_items (g : Graph) (s : String) : Finset ℕ :=
  match alookup g.str_to_int_user s with
  | none => ∅
  | some uid => (alookup g.user_to_items uid).getD ∅

/-- Embeds `self.user_to_items.get(uid, set())` at the internal-handle level. -/
def userItemsOf (g : Graph) (u : ℕ) : Finset ℕ :=
  (alookup g.user_to_items u).getD ∅

/-- Embeds `OptimizedUserItemGraph.get_item_users`. -/
def get_item_users (g : Graph) (i : ℕ) : Finset ℕ :=
  (alookup g.item_to_users i).getD ∅

/-- The body of `compute_similarity` without the cache: the Jaccard index of
the two audiences, with the empty-audience guard and the `union > 0` guard
exactly as in the source. -/
def jaccard (g : Graph) (a b : ℕ) : ℚ :=
  if get_item_users g a = ∅ ∨ get_item_users g b = ∅ then 0
  else
    if (0 : ℚ) < ((get_item_users g a ∪ get_item_users g b).card : ℚ) then
      ((get_item_users g a ∩ get_item_users g b).card : ℚ) /
        ((get_item_users g a ∪ get_item_users g b).card : ℚ)
    else 0

/-- The `functools.lru_cache(maxsize=10000)` state on `compute_similarity`:
an association list from the ordered argument pair to the cached score, kept
most-recently-used first. -/
structure Cache where
  entries : List ((ℕ × ℕ) × ℚ)
deriving DecidableEq

def emptyCache : Cache := ⟨[]⟩

def CACHE_MAXSIZE : ℕ := 10000

def cacheLookup (c : Cache) (k : ℕ × ℕ) : Option ℚ :=
  alookup c.entries k

/-- Holds (`true`) when a call `compute_similarity(a, b)` would be answered from the
cache (a cache hit, no recomputation). -/
def cacheHit (c : Cache) (a b : ℕ) : Bool :=
  (cacheLookup c (a, b)).isSome

def eraseKey (l : List ((ℕ × ℕ) × ℚ)) (k : ℕ × ℕ) : List ((ℕ × ℕ) × ℚ) :=
  l.filter (fun p => decide (p.1 ≠ k))

/-- Embeds `OptimizedRecommendationEngine.compute_similarity` with its lru_cache:
on a hit the entry moves to the most-recently-used position; on a miss the
Jaccard index of the current audiences is computed, stored under the ordered
key `(a, b)`, and the least-recently-used entry is dropped beyond capacity. -/
def compute_similarity (g : Graph) (c : Cache) (a b : ℕ) : ℚ × Cache :=
  match cacheLookup c (a, b) with
  | some v => (v, ⟨((a, b), v) :: eraseKey c.entries (a, b)⟩)
  | none =>
      (jaccard g a b, ⟨(((a, b), jaccard g a b) :: c.entries).take CACHE_MAXSIZE⟩)

/-- Union of `self.graph.user_to_items[other_user]` over a list of users;
`none` models the `KeyError` of the unguarded dict access. -/
def itemsUnion (g : Graph) : List ℕ → Option (Finset ℕ)
  | [] => some ∅
  | ou :: rest => do
      let t ← alookup g.user_to_items ou
      let r ← itemsUnion g rest
      pure (t ∪ r)

/-- Candidate generation of `recommend`: for each item of the user's history,
the items of every user in that item's audience. -/
def candidateSet (g : Graph) : List ℕ → Option (Finset ℕ)
  | [] => some ∅
  | m :: rest => do
      let s ← itemsUnion g ((get_item_users g m).sort (· ≤ ·))
      let r ← candidateSet g rest
      pure (s ∪ r)

/-- The scoring inner loop: `score_sum = Σ compute_similarity(my_item, cand)`
over the user's history, threading the cache in loop order. -/
def scoreCandidate (g : Graph) (c : Cache) (hist : List ℕ) (cand : ℕ) :
    ℚ × Cache :=
  match hist with
  | [] => (0, c)
  | m :: rest =>
      let p := compute_similarity g c m cand
      let q := scoreCandidate g p.2 rest cand
      (p.1 + q.1, q.2)

/-- The scoring outer loop: one `(candidate, score)` entry per candidate. -/
def scoreAll (g : Graph) (c : Cache) (hist : List ℕ) :
    List ℕ → List (ℕ × ℚ) × Cache
  | [] => ([], c)
  | cand :: rest =>
      let p := scoreCandidate g c hist cand
      let q := scoreAll g p.2 hist rest
      ((cand, p.1) :: q.1, q.2)

/-- Stable insertion into a list sorted by descending score. -/
def insertDesc (x : ℕ × ℚ) : List (ℕ × ℚ) → List (ℕ × ℚ)
  | [] => [x]
  | y :: ys => if y.2 < x.2 then x :: y :: ys else y :: insertDesc x ys

/-- Embeds the `heapq.nlargest` ordering: stable sort by descending score. -/
def sortDesc : List (ℕ × ℚ) → List (ℕ × ℚ)
  | [] => []
  | x :: xs => insertDesc x (sortDesc xs)

/-- The final list comprehension of `recommend`:
`[(self.graph.int_to_str_item[iid], score) ...]`; `none` models the
`KeyError` of the unguarded dict access. -/
def translate (g : Graph) : List (ℕ × ℚ) → Option (List (String × ℚ))
  | [] => some []
  | p :: rest => do
      let s ← alookup g.int_to_str_item p.1
      let r ← translate g rest
      pure ((s, p.2) :: r)

/-- Embeds the `OptimizedRecommendationEngine` state: the graph reference plus the
similarity cache owned through `compute_similarity`'s lru_cache. -/
structure Engine where
  graph : Graph
  cache : Cache
deriving DecidableEq

/-- Embeds `OptimizedRecommendationEngine.recommend`.  Set/dict iteration order is
fixed by sorting handles ascending, which does not affect any claim (the one
concrete scenario has a single candidate, and the remaining claims are about
membership, not rank order among ties). -/
def recommend (e : Engine) (user : String) (k : ℕ) :
    Option (List (String × ℚ)) × Engine :=
  if get_user_items e.graph user = ∅ then (some [], e)
  else
    match candidateSet e.graph ((get_user_items e.graph user).sort (· ≤ ·)) with
    | none => (none, e)
    | some cands =>
        (translate e.graph
           ((sortDesc
              (scoreAll e.graph e.cache
                ((get_user_items e.graph user).sort (· ≤ ·))
                ((cands \ get_user_items e.graph user).sort (· ≤ ·))).1).take k),
         { e with
            cache :=
              (scoreAll e.graph e.cache
                ((get_user_items e.graph user).sort (· ≤ ·))
                ((cands \ get_user_items e.graph user).sort (· ≤ ·))).2 })

/-- Intern a list of user strings in order, collecting the handles. -/
def internUsers (g : Graph) : List String → List ℕ × Graph
  | [] => ([], g)
  | s :: ss =>
      ((getUserId g s).1 :: (internUsers (getUserId g s).2 ss).1,
       (internUsers (getUserId g s).2 ss).2)

/-- Intern a list of item strings in order, collecting the handles. -/
def internItems (g : Graph) : List String → List ℕ × Graph
  | [] => ([], g)
  | s :: ss =>
      ((getItemId g s).1 :: (internItems (getItemId g s).2 ss).1,
       (internItems (getItemId g s).2 ss).2)

/-- Graph states reachable from a fresh graph by `add_interaction` alone. -/
inductive Reachable : Graph → Prop
  | empty : Reachable emptyGraph
  | step (g : Graph) (ustr istr : String) :
      Reachable g → Reachable (add_interaction g ustr istr)

/-- The concrete scenario of the spec: interactions
(U1,A), (U1,B), (U2,A), (U2,C) on a fresh graph. -/
def demoGraph : Graph :=
  add_interaction
    (add_interaction (add_interaction (add_interaction emptyGraph "U1" "A") "U1" "B")
      "U2" "A") "U2" "C"

/-! ### Association-list lemmas -/

theorem alookup_aupdate {α β : Type} [DecidableEq α] (l : List (α × β)) (k : α)
    (v : β) (q : α) :
    alookup (aupdate l k v) q =
      if q = k then (alookup l k).map (fun _ => v) else alookup l q := by
  induction l with
  | nil => simp [alookup, aupdate]
  | cons p t ih =>
      simp only [aupdate, List.map_cons] at ih ⊢
      by_cases hp : p.1 = k
      · by_cases hq : q = k
        · subst hq; simp [alookup, hp]
        · have hkq : ¬ k = q := fun h => hq h.symm
          simp only [alookup, hp, hq, hkq, if_true, if_false, reduceIte] at ih ⊢
          exact ih
      · by_cases hq : q = k
        · subst hq; simp [alookup, hp, ih]
        · by_cases hpq : p.1 = q
          · simp [alookup, hp, hq, hpq]
          · simp only [alookup, hp, hq, hpq, if_false, reduceIte] at ih ⊢
            exact ih

theorem alookup_setdefaultAdd (l : List (ℕ × Finset ℕ)) (k v : ℕ) (q : ℕ) :
    alookup (setdefaultAdd l k v) q =
      if q = k then some (insert v ((alookup l k).getD ∅)) else alookup l q := by
  unfold setdefaultAdd
  cases h : alookup l k with
  | none =>
      by_cases hq : q = k
      · subst hq; simp [alookup, h]
      · have : ¬ k = q := fun hh => hq hh.symm
        simp [alookup, hq, this]
  | some s =>
      rw [alookup_aupdate]
      by_cases hq : q = k <;> simp [hq, h]

theorem alookup_take {α β : Type} [DecidableEq α] (l : List (α × β)) (n : ℕ)
    (k : α) (h : alookup l k = none) : alookup (l.take n) k = none := by
  induction l generalizing n with
  | nil => simp [alookup]
  | cons p t ih =>
      cases n with
      | zero => simp [alookup]
      | succ m =>
          by_cases hp : p.1 = k
          · simp [alookup, hp] at h
          · simp [alookup, hp] at h ⊢
            exact ih m h

/-! ### Field-preservation lemmas for the interners -/

theorem getUserId_user_to_items (g : Graph) (s : String) :
    (getUserId g s).2.user_to_items = g.user_to_items := by
  unfold getUserId; cases alookup g.str_to_int_user s <;> rfl

theorem getUserId_item_to_users (g : Graph) (s : String) :
    (getUserId g s).2.item_to_users = g.item_to_users := by
  unfold getUserId; cases alookup g.str_to_int_user s <;> rfl

theorem getUserId_str_to_int_item (g : Graph) (s : String) :
    (getUserId g s).2.str_to_int_item = g.str_to_int_item := by
  unfold getUserId; cases alookup g.str_to_int_user s <;> rfl

theorem getUserId_int_to_str_item (g : Graph) (s : String) :
    (getUserId g s).2.int_to_str_item = g.int_to_str_item := by
  unfold getUserId; cases alookup g.str_to_int_user s <;> rfl

theorem getUserId_item_counter (g : Graph) (s : String) :
    (getUserId g s).2.item_counter = g.item_counter := by
  unfold getUserId; cases alookup g.str_to_int_user s <;> rfl

theorem getItemId_user_to_items (g : Graph) (s : String) :
    (getItemId g s).2.user_to_items = g.user_to_items := by
  unfold getItemId; cases alookup g.str_to_int_item s <;> rfl

theorem getItemId_item_to_users (g : Graph) (s : String) :
    (getItemId g s).2.item_to_users = g.item_to_users := by
  unfold getItemId; cases alookup g.str_to_int_item s <;> rfl

theorem getItemId_str_to_int_user (g : Graph) (s : String) :
    (getItemId g s).2.str_to_int_user = g.str_to_int_user := by
  unfold getItemId; cases alookup g.str_to_int_item s <;> rfl

theorem getItemId_int_to_str_user (g : Graph) (s : String) :
    (getItemId g s).2.int_to_str_user = g.int_to_str_user := by
  unfold getItemId; cases alookup g.str_to_int_item s <;> rfl

theorem getItemId_user_counter (g : Graph) (s : String) :
    (getItemId g s).2.user_counter = g.user_counter := by
  unfold getItemId; cases alookup g.str_to_int_item s <;> rfl

/-! ### Effect of `add_interaction` on the adjacency maps -/

/-- The user handle an `add_interaction g ustr istr` call uses. -/
def addUid (g : Graph) (ustr : String) : ℕ := (getUserId g ustr).1

/-- The item handle an `add_interaction g ustr istr` call uses. -/
def addIid (g : Graph) (ustr istr : String) : ℕ :=
  (getItemId (getUserId g ustr).2 istr).1

theorem userItemsOf_add (g : Graph) (ustr istr : String) (u : ℕ) :
    userItemsOf (add_interaction g ustr istr) u =
      if u = addUid g ustr then insert (addIid g ustr istr) (userItemsOf g u)
      else userItemsOf g u := by
  unfold userItemsOf add_interaction addUid addIid
  rw [alookup_setdefaultAdd, getItemId_user_to_items, getUserId_user_to_items]
  by_cases hu : u = (getUserId g ustr).1 <;> simp [hu]

theorem get_item_users_add (g : Graph) (ustr istr : String) (i : ℕ) :
    get_item_users (add_interaction g ustr istr) i =
      if i = addIid g ustr istr then insert (addUid g ustr) (get_item_users g i)
      else get_item_users g i := by
  unfold get_item_users add_interaction addUid addIid
  rw [alookup_setdefaultAdd, getItemId_item_to_users, getUserId_item_to_users]
  by_cases hi : i = (getItemId (getUserId g ustr).2 istr).1 <;> simp [hi]

theorem add_interaction_str_to_int_item (g : Graph) (ustr istr : String) :
    (add_interaction g ustr istr).str_to_int_item =
      (getItemId (getUserId g ustr).2 istr).2.str_to_int_item := rfl

theorem add_interaction_int_to_str_item (g : Graph) (ustr istr : String) :
    (add_interaction g ustr istr).int_to_str_item =
      (getItemId (getUserId g ustr).2 istr).2.int_to_str_item := rfl

/-! ### Well-formedness of reachable graph states -/

/-- Invariants maintained by `add_interaction`: the two adjacency maps are
mirror images, every item handle in a history is named by the item interner,
the two item-interner maps are mutually inverse, and `item_counter` bounds
every assigned item handle. -/
structure WF (g : Graph) : Prop where
  mirror : ∀ u i, i ∈ userItemsOf g u ↔ u ∈ get_item_users g i
  hist_named : ∀ u i, i ∈ userItemsOf g u → (alookup g.int_to_str_item i).isSome
  inv_a : ∀ i s, alookup g.int_to_str_item i = some s →
    alookup g.str_to_int_item s = some i
  inv_b : ∀ s i, alookup g.str_to_int_item s = some i →
    alookup g.int_to_str_item i = some s
  fresh_i2s : ∀ i, (alookup g.int_to_str_item i).isSome → i < g.item_counter
  fresh_s2i : ∀ s i, alookup g.str_to_int_item s = some i → i < g.item_counter

theorem getItemId_spec (g : Graph) (s : String)
    (ha : ∀ i t, alookup g.int_to_str_item i = some t →
      alookup g.str_to_int_item t = some i)
    (hb : ∀ t i, alookup g.str_to_int_item t = some i →
      alookup g.int_to_str_item i = some t)
    (hf1 : ∀ i, (alookup g.int_to_str_item i).isSome → i < g.item_counter)
    (hf2 : ∀ t i, alookup g.str_to_int_item t = some i → i < g.item_counter) :
    alookup (getItemId g s).2.int_to_str_item (getItemId g s).1 = some s ∧
    (∀ i t, alookup g.int_to_str_item i = some t →
      alookup (getItemId g s).2.int_to_str_item i = some t) ∧
    (∀ i t, alookup (getItemId g s).2.int_to_str_item i = some t →
      alookup (getItemId g s).2.str_to_int_item t = some i) ∧
    (∀ t i, alookup (getItemId g s).2.str_to_int_item t = some i →
      alookup (getItemId g s).2.int_to_str_item i = some t) ∧
    (∀ i, (alookup (getItemId g s).2.int_to_str_item i).isSome →
      i < (getItemId g s).2.item_counter) ∧
    (∀ t i, alookup (getItemId g s).2.str_to_int_item t = some i →
      i < (getItemId g s).2.item_counter) := by
  unfold getItemId
  cases h : alookup g.str_to_int_item s with
  | some iid =>
      refine ⟨hb s iid h, fun i t ht => ht, ha, hb, hf1, hf2⟩
  | none =>
      simp only
      refine ⟨?_, ?_, ?_, ?_, ?_, ?_⟩
      · simp [alookup]
      · intro i t ht
        have hi : i < g.item_counter := hf1 i (by simp [ht])
        have : ¬ g.item_counter = i := fun hh => absurd (hh ▸ hi) (lt_irrefl i)
        simp [alookup, this, ht]
      · intro i t ht
        by_cases hi : g.item_counter = i
        · subst hi
          simp only [alookup, if_pos rfl] at ht
          have hts : t = s := by
            injection ht with hh
            exact hh.symm
          subst hts
          simp [alookup]
        · simp only [alookup, hi, if_neg hi] at ht
          have hts : ¬ t = s := by
            intro hh
            subst hh
            have := ha i t ht
            rw [h] at this
            exact Option.noConfusion this
          have hst : ¬ s = t := fun hh => hts hh.symm
          simp [alookup, hst]
          exact ha i t ht
      · intro t i ht
        by_cases hts : s = t
        · subst hts
          simp only [alookup, if_pos rfl] at ht
          have hic : i = g.item_counter := by
            injection ht with hh
            exact hh.symm
          subst hic
          simp [alookup]
        · simp only [alookup, if_neg hts] at ht
          have hi : i < g.item_counter := hf2 t i ht
          have : ¬ g.item_counter = i := fun hh => absurd (hh ▸ hi) (lt_irrefl i)
          simp [alookup, this]
          exact hb t i ht
      · intro i hi
        by_cases hic : g.item_counter = i
        · omega
        · simp only [alookup, hic, if_neg hic] at hi
          have := hf1 i hi
          omega
      · intro t i ht
        by_cases hts : s = t
        · subst hts
          simp only [alookup, if_pos rfl] at ht
          have hic : g.item_counter = i := by injection ht
          omega
        · simp only [alookup, if_neg hts] at ht
          have := hf2 t i ht
          omega

theorem wf_empty : WF emptyGraph := by
  refine ⟨?_, ?_, ?_, ?_, ?_, ?_⟩ <;>
    simp [userItemsOf, get_item_users, alookup, emptyGraph]

theorem wf_add (g : Graph) (ustr istr : String) (h : WF g) :
    WF (add_interaction g ustr istr) := by
  have e1s : (getUserId g ustr).2.str_to_int_item = g.str_to_int_item :=
    getUserId_str_to_int_item g ustr
  have e1i : (getUserId g ustr).2.int_to_str_item = g.int_to_str_item :=
    getUserId_int_to_str_item g ustr
  have e1c : (getUserId g ustr).2.item_counter = g.item_counter :=
    getUserId_item_counter g ustr
  have spec := getItemId_spec (getUserId g ustr).2 istr
    (by rw [e1s, e1i]; exact h.inv_a) (by rw [e1s, e1i]; exact h.inv_b)
    (by rw [e1i, e1c]; exact h.fresh_i2s) (by rw [e1s, e1c]; exact h.fresh_s2i)
  obtain ⟨snew, smono, sinva, sinvb, sf1, sf2⟩ := spec
  have eadd_i : (add_interaction g ustr istr).int_to_str_item =
      (getItemId (getUserId g ustr).2 istr).2.int_to_str_item := rfl
  have eadd_s : (add_interaction g ustr istr).str_to_int_item =
      (getItemId (getUserId g ustr).2 istr).2.str_to_int_item := rfl
  have eadd_c : (add_interaction g ustr istr).item_counter =
      (getItemId (getUserId g ustr).2 istr).2.item_counter := rfl
  refine ⟨?_, ?_, ?_, ?_, ?_, ?_⟩
  · intro u i
    rw [userItemsOf_add, get_item_users_add]
    by_cases hu : u = addUid g ustr
    · by_cases hi : i = addIid g ustr istr
      · simp [hu, hi]
      · rw [if_pos hu, if_neg hi]
        subst hu
        constructor
        · intro hmem
          rcases Finset.mem_insert.mp hmem with hii | hii
          · exact absurd hii hi
          · exact (h.mirror _ i).mp hii
        · intro hmem
          exact Finset.mem_insert_of_mem ((h.mirror _ i).mpr hmem)
    · by_cases hi : i = addIid g ustr istr
      · rw [if_neg hu, if_pos hi]
        constructor
        · intro hmem
          exact Finset.mem_insert_of_mem ((h.mirror u i).mp hmem)
        · intro hmem
          rcases Finset.mem_insert.mp hmem with huu | huu
          · exact absurd huu hu
          · exact (h.mirror u i).mpr huu
      · rw [if_neg hu, if_neg hi]
        exact h.mirror u i
  · intro u i hi
    rw [eadd_i]
    rw [userItemsOf_add] at hi
    by_cases hu : u = addUid g ustr
    · rw [if_pos hu] at hi
      rcases Finset.mem_insert.mp hi with hii | hii
      · subst hii
        exact Option.isSome_iff_exists.mpr ⟨istr, snew⟩
      · obtain ⟨t, ht⟩ := Option.isSome_iff_exists.mp (h.hist_named u i hii)
        rw [← e1i] at ht
        exact Option.isSome_iff_exists.mpr ⟨t, smono i t ht⟩
    · rw [if_neg hu] at hi
      obtain ⟨t, ht⟩ := Option.isSome_iff_exists.mp (h.hist_named u i hi)
      rw [← e1i] at ht
      exact Option.isSome_iff_exists.mpr ⟨t, smono i t ht⟩
  · intro i t
    rw [eadd_i, eadd_s]
    exact sinva i t
  · intro t i
    rw [eadd_i, eadd_s]
    exact sinvb t i
  · intro i
    rw [eadd_i, eadd_c]
    exact sf1 i
  · intro t i
    rw [eadd_s, eadd_c]
    exact sf2 t i

theorem reachable_wf (g : Graph) (h : Reachable g) : WF g := by
  induction h with
  | empty => exact wf_empty
  | step g ustr istr _ ih => exact wf_add g ustr istr ih

/-! ### Tracing the output of `recommend` back to the candidate set -/

theorem itemsUnion_mem (g : Graph) (l : List ℕ) (s : Finset ℕ)
    (h : itemsUnion g l = some s) (x : ℕ) (hx : x ∈ s) :
    ∃ ou ∈ l, ∃ t, alookup g.user_to_items ou = some t ∧ x ∈ t := by
  induction l generalizing s with
  | nil =>
      simp only [itemsUnion] at h
      injection h with hh
      subst hh
      exact absurd hx (Finset.not_mem_empty x)
  | cons ou rest ih =>
      simp only [itemsUnion, Option.bind_eq_bind, bind, Option.bind] at h
      cases hl : alookup g.user_to_items ou with
      | none => rw [hl] at h; exact Option.noConfusion h
      | some t =>
          rw [hl] at h
          cases hr : itemsUnion g rest with
          | none => rw [hr] at h; exact Option.noConfusion h
          | some r =>
              rw [hr] at h
              injection h with hh
              subst hh
              rcases Finset.mem_union.mp hx with hxt | hxr
              · exact ⟨ou, List.mem_cons_self ou rest, t, hl, hxt⟩
              · obtain ⟨ou₂, hmem, t₂, hl₂, hx₂⟩ := ih r hr hxr
                exact ⟨ou₂, List.mem_cons_of_mem ou hmem, t₂, hl₂, hx₂⟩

theorem candidateSet_mem (g : Graph) (l : List ℕ) (s : Finset ℕ)
    (h : candidateSet g l = some s) (x : ℕ) (hx : x ∈ s) :
    ∃ m ∈ l, ∃ ou, ou ∈ get_item_users g m ∧
      ∃ t, alookup g.user_to_items ou = some t ∧ x ∈ t := by
  induction l generalizing s with
  | nil =>
      simp only [candidateSet] at h
      injection h with hh
      subst hh
      exact absurd hx (Finset.not_mem_empty x)
  | cons m rest ih =>
      simp only [candidateSet, Option.bind_eq_bind, bind, Option.bind] at h
      cases hu : itemsUnion g ((get_item_users g m).sort (· ≤ ·)) with
      | none => rw [hu] at h; exact Option.noConfusion h
      | some su =>
          rw [hu] at h
          cases hr : candidateSet g rest with
          | none => rw [hr] at h; exact Option.noConfusion h
          | some r =>
              rw [hr] at h
              injection h with hh
              subst hh
              rcases Finset.mem_union.mp hx with hxu | hxr
              · obtain ⟨ou, houmem, t, hl, hxt⟩ := itemsUnion_mem g _ su hu x hxu
                exact ⟨m, List.mem_cons_self m rest, ou,
                  (Finset.mem_sort (· ≤ ·)).mp houmem, t, hl, hxt⟩
              · obtain ⟨m₂, hmem, ou, hou, t, hl, hxt⟩ := ih r hr hxr
                exact ⟨m₂, List.mem_cons_of_mem m hmem, ou, hou, t, hl, hxt⟩

theorem scoreAll_keys (g : Graph) (hist : List ℕ) (cands : List ℕ) (c : Cache)
    (p : ℕ × ℚ) (hp : p ∈ (scoreAll g c hist cands).1) : p.1 ∈ cands := by
  induction cands generalizing c with
  | nil => simp [scoreAll] at hp
  | cons cand rest ih =>
      simp only [scoreAll, List.mem_cons] at hp
      rcases hp with hp | hp
      · subst hp; exact List.mem_cons_self cand rest
      · exact List.mem_cons_of_mem cand (ih _ hp)

theorem mem_insertDesc (x : ℕ × ℚ) (l : List (ℕ × ℚ)) (p : ℕ × ℚ) :
    p ∈ insertDesc x l ↔ p = x ∨ p ∈ l := by
  induction l with
  | nil => simp [insertDesc]
  | cons y ys ih =>
      unfold insertDesc
      by_cases hy : y.2 < x.2
      · rw [if_pos hy]
        simp only [List.mem_cons]
      · rw [if_neg hy]
        simp only [List.mem_cons, ih]
        tauto

theorem mem_sortDesc (l : List (ℕ × ℚ)) (p : ℕ × ℚ) :
    p ∈ sortDesc l ↔ p ∈ l := by
  induction l with
  | nil => simp [sortDesc]
  | cons x xs ih => simp [sortDesc, mem_insertDesc, ih, List.mem_cons]

theorem translate_mem (g : Graph) (l : List (ℕ × ℚ)) (out : List (String × ℚ))
    (h : translate g l = some out) (p : String × ℚ) (hp : p ∈ out) :
    ∃ q ∈ l, alookup g.int_to_str_item q.1 = some p.1 ∧ p.2 = q.2 := by
  induction l generalizing out with
  | nil =>
      simp only [translate] at h
      injection h with hh
      subst hh
      exact absurd hp (List.not_mem_nil p)
  | cons q rest ih =>
      simp only [translate, Option.bind_eq_bind, bind, Option.bind] at h
      cases hs : alookup g.int_to_str_item q.1 with
      | none => rw [hs] at h; exact Option.noConfusion h
      | some s =>
          rw [hs] at h
          cases hr : translate g rest with
          | none => rw [hr] at h; exact Option.noConfusion h
          | some r =>
              rw [hr] at h
              injection h with hh
              subst hh
              rcases List.mem_cons.mp hp with hp | hp
              · subst hp
                exact ⟨q, List.mem_cons_self q rest, hs, rfl⟩
              · obtain ⟨q₂, hmem, hs₂, he₂⟩ := ih r hr hp
                exact ⟨q₂, List.mem_cons_of_mem q hmem, hs₂, he₂⟩

/-! ### Jaccard symmetry and cache behavior -/

theorem jaccard_comm (g : Graph) (a b : ℕ) : jaccard g a b = jaccard g b a := by
  unfold jaccard
  by_cases h : get_item_users g a = ∅ ∨ get_item_users g b = ∅
  · rw [if_pos h, if_pos h.symm]
  · have h' : ¬ (get_item_users g b = ∅ ∨ get_item_users g a = ∅) :=
      fun hh => h hh.symm
    rw [if_neg h, if_neg h']
    rw [Finset.union_comm (get_item_users g a) (get_item_users g b),
        Finset.inter_comm (get_item_users g a) (get_item_users g b)]

theorem compute_similarity_of_hit (g : Graph) (c : Cache) (a b : ℕ) (v : ℚ)
    (h : cacheLookup c (a, b) = some v) :
    (compute_similarity g c a b).1 = v := by
  unfold compute_similarity
  rw [h]

theorem compute_similarity_of_miss (g : Graph) (c : Cache) (a b : ℕ)
    (h : cacheLookup c (a, b) = none) :
    (compute_similarity g c a b).1 = jaccard g a b := by
  unfold compute_similarity
  rw [h]

theorem cacheHit_after_miss (g : Graph) (c : Cache) (a b : ℕ)
    (h : cacheLookup c (a, b) = none) :
    cacheLookup (compute_similarity g c a b).2 (a, b) = some (jaccard g a b) := by
  unfold compute_similarity
  rw [h]
  show alookup ((((a, b), jaccard g a b) :: c.entries).take CACHE_MAXSIZE) (a, b) =
    some (jaccard g a b)
  rw [show CACHE_MAXSIZE = 9999 + 1 from rfl, List.take_succ_cons]
  simp [alookup]

theorem cacheMiss_preserved (g : Graph) (c : Cache) (a b x y : ℕ)
    (hne : (x, y) ≠ (a, b)) (h : cacheLookup c (a, b) = none)
    (hx : cacheLookup c (x, y) = none) :
    cacheLookup (compute_similarity g c a b).2 (x, y) = none := by
  unfold compute_similarity
  rw [h]
  show alookup ((((a, b), jaccard g a b) :: c.entries).take CACHE_MAXSIZE) (x, y) =
    none
  rw [show CACHE_MAXSIZE = 9999 + 1 from rfl, List.take_succ_cons]
  have hne' : ¬ ((a, b) = (x, y)) := fun hh => hne hh.symm
  simp only [alookup, hne', if_neg hne']
  exact alookup_take c.entries 9999 (x, y) hx

/-! ### Interner behavior -/

theorem getUserId_idem (g : Graph) (s : String) :
    getUserId (getUserId g s).2 s = ((getUserId g s).1, (getUserId g s).2) := by
  unfold getUserId
  cases h : alookup g.str_to_int_user s with
  | some uid => simp [h]
  | none => simp [h, alookup]

theorem getItemId_idem (g : Graph) (s : String) :
    getItemId (getItemId g s).2 s = ((getItemId g s).1, (getItemId g s).2) := by
  unfold getItemId
  cases h : alookup g.str_to_int_item s with
  | some iid => simp [h]
  | none => simp [h, alookup]

theorem internUsers_fresh (ss : List String) (g : Graph) (hnd : ss.Nodup)
    (hfresh : ∀ s ∈ ss, alookup g.str_to_int_user s = none) :
    (internUsers g ss).1 = List.range' g.user_counter ss.length := by
  induction ss generalizing g with
  | nil => simp [internUsers, List.range']
  | cons s rest ih =>
      have hs : alookup g.str_to_int_user s = none :=
        hfresh s (List.mem_cons_self s rest)
      have hnotmem : s ∉ rest := (List.nodup_cons.mp hnd).1
      have hgu : getUserId g s = (g.user_counter,
          { g with
              str_to_int_user := (s, g.user_counter) :: g.str_to_int_user
              int_to_str_user := (g.user_counter, s) :: g.int_to_str_user
              user_counter := g.user_counter + 1 }) := by
        unfold getUserId
        rw [hs]
      have hrest : ∀ t ∈ rest,
          alookup ((s, g.user_counter) :: g.str_to_int_user) t = none := by
        intro t ht
        have hst : ¬ s = t := fun hh => hnotmem (hh ▸ ht)
        simp only [alookup, hst, if_neg hst]
        exact hfresh t (List.mem_cons_of_mem s ht)
      have hstep : (internUsers
          { g with
              str_to_int_user := (s, g.user_counter) :: g.str_to_int_user
              int_to_str_user := (g.user_counter, s) :: g.int_to_str_user
              user_counter := g.user_counter + 1 } rest).1 =
          List.range' (g.user_counter + 1) rest.length :=
        ih _ (List.nodup_cons.mp hnd).2 hrest
      show (internUsers g (s :: rest)).1 =
        List.range' g.user_counter (s :: rest).length
      unfold internUsers
      rw [hgu]
      dsimp only
      rw [hstep, List.length_cons, List.range'_succ]

theorem internItems_fresh (ss : List String) (g : Graph) (hnd : ss.Nodup)
    (hfresh : ∀ s ∈ ss, alookup g.str_to_int_item s = none) :
    (internItems g ss).1 = List.range' g.item_counter ss.length := by
  induction ss generalizing g with
  | nil => simp [internItems, List.range']
  | cons s rest ih =>
      have hs : alookup g.str_to_int_item s = none :=
        hfresh s (List.mem_cons_self s rest)
      have hnotmem : s ∉ rest := (List.nodup_cons.mp hnd).1
      have hgi : getItemId g s = (g.item_counter,
          { g with
              str_to_int_item := (s, g.item_counter) :: g.str_to_int_item
              int_to_str_item := (g.item_counter, s) :: g.int_to_str_item
              item_counter := g.item_counter + 1 }) := by
        unfold getItemId
        rw [hs]
      have hrest : ∀ t ∈ rest,
          alookup ((s, g.item_counter) :: g.str_to_int_item) t = none := by
        intro t ht
        have hst : ¬ s = t := fun hh => hnotmem (hh ▸ ht)
        simp only [alookup, hst, if_neg hst]
        exact hfresh t (List.mem_cons_of_mem s ht)
      have hstep : (internItems
          { g with
              str_to_int_item := (s, g.item_counter) :: g.str_to_int_item
              int_to_str_item := (g.item_counter, s) :: g.int_to_str_item
              item_counter := g.item_counter + 1 } rest).1 =
          List.range' (g.item_counter + 1) rest.length :=
        ih _ (List.nodup_cons.mp hnd).2 hrest
      show (internItems g (s :: rest)).1 =
        List.range' g.item_counter (s :: rest).length
      unfold internItems
      rw [hgi]
      dsimp only
      rw [hstep, List.length_cons, List.range'_succ]

theorem reachable_demo : Reachable demoGraph :=
  Reachable.step _ "U2" "C" (Reachable.step _ "U2" "A"
    (Reachable.step _ "U1" "B" (Reachable.step _ "U1" "A" Reachable.empty)))

/-- A cache is consistent with a graph when every cached score equals the
Jaccard index of the current audiences of its key pair — the state of affairs
whenever no insertion has touched the graph since the value was cached. -/
def CacheConsistent (g : Graph) (c : Cache) : Prop :=
  ∀ p v, alookup c.entries p = some v → v = jaccard g p.1 p.2

/-- Graph after inserting (U1,A) and (U1,B): items A = 0 and B = 1 both have
audience {0}, so their cached similarity is 1. -/
def staleGraph1 : Graph :=
  add_interaction (add_interaction emptyGraph "U1" "A") "U1" "B"

/-- Cache populated by `compute_similarity(0, 1)` on `staleGraph1`. -/
def staleCache : Cache := (compute_similarity staleGraph1 emptyCache 0 1).2

/-- State of `staleGraph1` after a further insertion (U2,A): the audience of A is now
{0, 1} while the cache still stores similarity 1 for the ordered pair (0, 1). -/
def staleGraph2 : Graph := add_interaction staleGraph1 "U2" "A"

/-! ### Claim theorems -/

/-- C1: on a fresh graph with interactions (U1,A), (U1,B), (U2,A), (U2,C),
`recommend("U1", k=5)` returns exactly the one-element sequence
[("C", 0.5)], where 0.5 is the Jaccard similarity of the audiences of A
and C. -/
theorem c1_concrete_scenario :
    (recommend ⟨demoGraph, emptyCache⟩ "U1" 5).1 =
      some [("C", (1 : ℚ) / 2)] := by with_unfolding_all decide

/-- C2 counterexample: on the demo graph with an empty cache, after
`compute_similarity(0, 1)` has populated the cache, the swapped-order call
`compute_similarity(1, 0)` is NOT answered from the cache — the lru_cache
key is the ordered argument tuple, not the unordered pair (while the
same-order repeat is a hit). -/
theorem c2_counterexample_swapped_order_misses :
    cacheHit (compute_similarity demoGraph emptyCache 0 1).2 0 1 = true ∧
    cacheHit (compute_similarity demoGraph emptyCache 0 1).2 1 0 = false := by
  decide

/-- C2 (amended): `compute_similarity` memoizes its result under the ORDERED
pair of item handles: after a call `compute_similarity(a, b)` has populated
the cache, a subsequent call in the SAME argument order is answered from the
cache with the identical score without recomputation; the swapped-order call
`compute_similarity(b, a)` (for `a ≠ b`, not independently cached) is a cache
miss and recomputes, though it returns the identical score as long as no
intervening insertion changed the audience sets. -/
theorem c2_ordered_pair_memoization (g : Graph) (c : Cache) (a b : ℕ)
    (hmiss : cacheHit c a b = false) :
    cacheHit (compute_similarity g c a b).2 a b = true ∧
    (compute_similarity g (compute_similarity g c a b).2 a b).1 =
      (compute_similarity g c a b).1 ∧
    (a ≠ b → cacheHit c b a = false →
      cacheHit (compute_similarity g c a b).2 b a = false ∧
      (compute_similarity g (compute_similarity g c a b).2 b a).1 =
        (compute_similarity g c a b).1) := by
  have hnone : cacheLookup c (a, b) = none := by
    unfold cacheHit at hmiss
    cases h : cacheLookup c (a, b) with
    | none => rfl
    | some v => rw [h] at hmiss; simp at hmiss
  have hval : (compute_similarity g c a b).1 = jaccard g a b :=
    compute_similarity_of_miss g c a b hnone
  have hstored := cacheHit_after_miss g c a b hnone
  refine ⟨?_, ?_, ?_⟩
  · unfold cacheHit
    rw [hstored]
    rfl
  · rw [compute_similarity_of_hit g _ a b _ hstored, hval]
  · intro hab hmiss2
    have hnone2 : cacheLookup c (b, a) = none := by
      unfold cacheHit at hmiss2
      cases h : cacheLookup c (b, a) with
      | none => rfl
      | some v => rw [h] at hmiss2; simp at hmiss2
    have hne : ((b, a) : ℕ × ℕ) ≠ (a, b) := by
      intro hh
      injection hh with h1 h2
      exact hab h2
    have hpres := cacheMiss_preserved g c a b b a hne hnone hnone2
    constructor
    · unfold cacheHit
      rw [hpres]
      rfl
    · rw [compute_similarity_of_miss g _ b a hpres, hval]
      exact jaccard_comm g b a

/-- Witness for C2 (amended) at the demo graph, a = 0, b = 1. -/
theorem c2_ordered_pair_memoization_witness :
    cacheHit (compute_similarity demoGraph emptyCache 0 1).2 1 0 = false ∧
    (compute_similarity demoGraph
        (compute_similarity demoGraph emptyCache 0 1).2 1 0).1 =
      (compute_similarity demoGraph emptyCache 0 1).1 :=
  (c2_ordered_pair_memoization demoGraph emptyCache 0 1 (by decide)).2.2
    (by decide) (by decide)

/-- C3 counterexample: insert (U1,A), (U1,B); cache `compute_similarity(0,1)`
(value 1); insert (U2,A).  Now `compute_similarity(0, 1)` is answered from the
stale cache (1) while `compute_similarity(1, 0)` recomputes (1/2): the two
argument orders disagree, so symmetry fails for this engine state. -/
theorem c3_counterexample_stale_cache_asymmetry :
    (compute_similarity staleGraph2 staleCache 0 1).1 ≠
      (compute_similarity staleGraph2 staleCache 1 0).1 := by
  with_unfolding_all decide

/-- C3 (amended): `compute_similarity` is symmetric whenever every cached
entry agrees with the Jaccard index of the current audiences of its key pair
— in particular whenever no insertion has intervened since caching (and
always for the freshly computed function).  An interleaved insertion can
leave one argument order answered from a stale cache while the other is
recomputed, and then the two orders may disagree. -/
theorem c3_symmetry_with_consistent_cache (g : Graph) (c : Cache) (a b : ℕ)
    (hc : CacheConsistent g c) :
    (compute_similarity g c a b).1 = (compute_similarity g c b a).1 := by
  have hab : (compute_similarity g c a b).1 = jaccard g a b := by
    cases h : cacheLookup c (a, b) with
    | none => exact compute_similarity_of_miss g c a b h
    | some v =>
        rw [compute_similarity_of_hit g c a b v h]
        exact hc (a, b) v h
  have hba : (compute_similarity g c b a).1 = jaccard g b a := by
    cases h : cacheLookup c (b, a) with
    | none => exact compute_similarity_of_miss g c b a h
    | some v =>
        rw [compute_similarity_of_hit g c b a v h]
        exact hc (b, a) v h
  rw [hab, hba]
  exact jaccard_comm g a b

/-- Witness for C3 (amended) at the demo graph with the empty cache. -/
theorem c3_symmetry_with_consistent_cache_witness :
    (compute_similarity demoGraph emptyCache 0 2).1 =
      (compute_similarity demoGraph emptyCache 2 0).1 :=
  c3_symmetry_with_consistent_cache demoGraph emptyCache 0 2
    (fun p v h => by simp [emptyCache, alookup] at h)

/-- C4: mirror invariant — on every graph reachable from a fresh graph by
`add_interaction` calls, for all internal handles u and i,
i ∈ user_to_items[u] if and only if u ∈ item_to_users[i] (a handle absent
from a map having the empty set). -/
theorem c4_mirror_invariant (g : Graph) (h : Reachable g) (u i : ℕ) :
    i ∈ userItemsOf g u ↔ u ∈ get_item_users g i :=
  (reachable_wf g h).mirror u i

/-- Witness for C4 at the demo graph, u = 0 ("U1"), i = 0 ("A"). -/
theorem c4_mirror_invariant_witness :
    0 ∈ userItemsOf demoGraph 0 ↔ 0 ∈ get_item_users demoGraph 0 :=
  c4_mirror_invariant demoGraph reachable_demo 0 0

/-- Dissection of a successful `recommend` call: every returned pair is the
translation of a scored entry whose handle was a candidate not in the user's
history. -/
theorem recommend_some_elim (e : Engine) (u : String) (k : ℕ)
    (out : List (String × ℚ)) (hout : (recommend e u k).1 = some out)
    (p : String × ℚ) (hp : p ∈ out) :
    ∃ cands : Finset ℕ,
      candidateSet e.graph ((get_user_items e.graph u).sort (· ≤ ·)) =
        some cands ∧
      ∃ q : ℕ × ℚ, alookup e.graph.int_to_str_item q.1 = some p.1 ∧
        q.1 ∈ cands ∧ q.1 ∉ get_user_items e.graph u := by
  unfold recommend at hout
  split at hout
  · dsimp only at hout
    injection hout with hh
    subst hh
    exact absurd hp (List.not_mem_nil p)
  · split at hout
    · dsimp only at hout
      exact Option.noConfusion hout
    · rename_i cands hcs
      dsimp only at hout
      obtain ⟨q, hqtop, hname, hval⟩ := translate_mem e.graph _ out hout p hp
      have hq1 : q ∈ sortDesc (scoreAll e.graph e.cache
          ((get_user_items e.graph u).sort (· ≤ ·))
          ((cands \ get_user_items e.graph u).sort (· ≤ ·))).1 :=
        List.take_subset k _ hqtop
      have hq2 := (mem_sortDesc _ q).mp hq1
      have hq3 : q.1 ∈ (cands \ get_user_items e.graph u).sort (· ≤ ·) :=
        scoreAll_keys e.graph _ _ _ q hq2
      have hq4 : q.1 ∈ cands \ get_user_items e.graph u :=
        (Finset.mem_sort (· ≤ ·)).mp hq3
      have hsd := Finset.mem_sdiff.mp hq4
      exact ⟨cands, hcs, q, hname, hsd.1, hsd.2⟩

/-- C5: pruning soundness — every item returned by `recommend` shares at
least one user with at least one item of the querying user's history: its
audience has non-empty intersection with the audience of some history item. -/
theorem c5_pruning_soundness (e : Engine) (hg : Reachable e.graph) (u : String)
    (k : ℕ) (out : List (String × ℚ)) (hout : (recommend e u k).1 = some out)
    (p : String × ℚ) (hp : p ∈ out) :
    ∃ iid, alookup e.graph.int_to_str_item iid = some p.1 ∧
      ∃ m ∈ get_user_items e.graph u,
        (get_item_users e.graph iid ∩ get_item_users e.graph m).Nonempty := by
  obtain ⟨cands, hcs, q, hname, hqc, hqnot⟩ :=
    recommend_some_elim e u k out hout p hp
  obtain ⟨m, hmH, ou, houm, t, hlt, hqt⟩ :=
    candidateSet_mem e.graph _ cands hcs q.1 hqc
  have hm : m ∈ get_user_items e.graph u := (Finset.mem_sort (· ≤ ·)).mp hmH
  have hqou : q.1 ∈ userItemsOf e.graph ou := by
    rw [userItemsOf, hlt]
    exact hqt
  have houq : ou ∈ get_item_users e.graph q.1 :=
    ((reachable_wf e.graph hg).mirror ou q.1).mp hqou
  exact ⟨q.1, hname, m, hm, ⟨ou, Finset.mem_inter.mpr ⟨houq, houm⟩⟩⟩

/-- Witness for C5 at the demo scenario: the returned item "C" shares a user
with an item of U1's history. -/
theorem c5_pruning_soundness_witness :
    ∃ iid, alookup demoGraph.int_to_str_item iid = some "C" ∧
      ∃ m ∈ get_user_items demoGraph "U1",
        (get_item_users demoGraph iid ∩ get_item_users demoGraph m).Nonempty :=
  c5_pruning_soundness ⟨demoGraph, emptyCache⟩ reachable_demo "U1" 5
    [("C", (1 : ℚ) / 2)] (by with_unfolding_all decide) ("C", (1 : ℚ) / 2)
    (List.mem_singleton.mpr rfl)

/-- C6: no self-recommendation — no item already in the querying user's
interaction history appears in the output of `recommend`: the handle interned
for a returned external identifier is never in the user's history. -/
theorem c6_no_self_recommendation (e : Engine) (hg : Reachable e.graph)
    (u : String) (k : ℕ) (out : List (String × ℚ))
    (hout : (recommend e u k).1 = some out) (p : String × ℚ) (hp : p ∈ out)
    (h : ℕ) (hh : alookup e.graph.str_to_int_item p.1 = some h) :
    h ∉ get_user_items e.graph u := by
  obtain ⟨cands, hcs, q, hname, hqc, hqnot⟩ :=
    recommend_some_elim e u k out hout p hp
  have hinv := (reachable_wf e.graph hg).inv_a q.1 p.1 hname
  rw [hinv] at hh
  injection hh with hh2
  rw [← hh2]
  exact hqnot

/-- Witness for C6 at the demo scenario: handle 2 ("C") is returned and is
not in U1's history. -/
theorem c6_no_self_recommendation_witness :
    2 ∉ get_user_items demoGraph "U1" :=
  c6_no_self_recommendation ⟨demoGraph, emptyCache⟩ reachable_demo "U1" 5
    [("C", (1 : ℚ) / 2)] (by with_unfolding_all decide) ("C", (1 : ℚ) / 2)
    (List.mem_singleton.mpr rfl) 2 (by decide)

/-- C7: empty-history behavior — `recommend` on an external user identifier
that was never interned, or on a user whose recorded history is empty,
returns the empty sequence (and no error: the result is `some []`, never
`none`). -/
theorem c7_empty_history (e : Engine) (u : String) (k : ℕ)
    (h : alookup e.graph.str_to_int_user u = none ∨
      get_user_items e.graph u = ∅) :
    (recommend e u k).1 = some [] := by
  have hempty : get_user_items e.graph u = ∅ := by
    rcases h with h | h
    · unfold get_user_items
      rw [h]
    · exact h
  unfold recommend
  rw [if_pos hempty]

/-- Witness for C7: `recommend("Ghost", 3)` on the fresh graph. -/
theorem c7_empty_history_witness :
    (recommend ⟨emptyGraph, emptyCache⟩ "Ghost" 3).1 = some [] :=
  c7_empty_history ⟨emptyGraph, emptyCache⟩ "Ghost" 3 (Or.inl (by decide))

/-- C8: interning idempotence and density — interning the same external
identifier twice (users or items) returns the same handle and leaves the
state unchanged the second time; interning N distinct identifiers into a
fresh graph returns the N sequential handles 0, 1, ..., N-1 in order of
first sight. -/
theorem c8_interning_idempotence_density (ss ts : List String)
    (hss : ss.Nodup) (hts : ts.Nodup) :
    (∀ g s, getUserId (getUserId g s).2 s =
      ((getUserId g s).1, (getUserId g s).2)) ∧
    (∀ g s, getItemId (getItemId g s).2 s =
      ((getItemId g s).1, (getItemId g s).2)) ∧
    (internUsers emptyGraph ss).1 = List.range ss.length ∧
    (internItems emptyGraph ts).1 = List.range ts.length := by
  refine ⟨getUserId_idem, getItemId_idem, ?_, ?_⟩
  · rw [List.range_eq_range']
    exact internUsers_fresh ss emptyGraph hss (fun s _ => rfl)
  · rw [List.range_eq_range']
    exact internItems_fresh ts emptyGraph hts (fun s _ => rfl)

/-- Witness for C8 at three distinct users and two distinct items. -/
theorem c8_interning_idempotence_density_witness :
    (internUsers emptyGraph ["u1", "u2", "u3"]).1 = List.range 3 ∧
    (internItems emptyGraph ["i1", "i2"]).1 = List.range 2 :=
  ⟨(c8_interning_idempotence_density ["u1", "u2", "u3"] ["i1", "i2"]
      (by decide) (by decide)).2.2.1,
   (c8_interning_idempotence_density ["u1", "u2", "u3"] ["i1", "i2"]
      (by decide) (by decide)).2.2.2⟩

/-- C9: on every graph reachable by `add_interaction` calls only, every user
handle occurring in any item's audience set has an entry in `user_to_items`,
so the unguarded lookup `user_to_items[other_user]` inside `recommend` can
never hit its error branch. -/
theorem c9_unguarded_lookup_safe (g : Graph) (hg : Reachable g) (i u : ℕ)
    (hu : u ∈ get_item_users g i) :
    (alookup g.user_to_items u).isSome = true := by
  cases hl : alookup g.user_to_items u with
  | some t => rfl
  | none =>
      have hmem : i ∈ userItemsOf g u := ((reachable_wf g hg).mirror u i).mpr hu
      rw [userItemsOf, hl] at hmem
      simp at hmem

/-- Witness for C9 at the demo graph: user 1 ("U2") is in the audience of
item 2 ("C"). -/
theorem c9_unguarded_lookup_safe_witness :
    (alookup demoGraph.user_to_items 1).isSome = true :=
  c9_unguarded_lookup_safe demoGraph reachable_demo 2 1 (by decide)

/-- C10: `recommend` is a pure query with respect to the graph — the graph
component of the engine state (its `user_to_items`, `item_to_users`, both
interner maps and both counters) is identical before and after the call;
only the engine's similarity cache may change. -/
theorem c10_recommend_graph_frame (e : Engine) (u : String) (k : ℕ) :
    (recommend e u k).2.graph = e.graph := by
  unfold recommend
  split
  · rfl
  · split <;> rfl

end RecSys
